import Mathlib

/-!
Verification development for the datafeed engine: a shallow embedding of the
Series Store (`datafeed_engine/database.py`), the OKX pagination loop
(`datafeed_engine/fetchers.py`), the Sync Coordinator step
(`datafeed_engine/engine.py`) and the Query API read path (`data_loader.py`),
with theorems settling the spec's testable properties against the code.

Conventions: timestamps are epoch milliseconds as `Nat`; SQLite REAL columns
carry `Option Int` payloads where `none` stands for pandas `NaN` (a value
whose identity never matters to any property proved here); Python `while`
loops are embedded with an explicit `fuel` iteration bound.
-/

namespace Datafeed

/-- A raw numeric field in an upstream payload row: either a numeric value or
a malformed (non-numeric) entry. -/
inductive Rv where
  | num (q : Int)
  | malformed
deriving DecidableEq, Repr

/-- `pd.to_numeric(col, errors='coerce')` on one value: numeric values are
kept, malformed entries are coerced to the missing sentinel (pandas `NaN`,
modelled as `none`). -/
def coerceRv : Rv → Option Int
  | .num q => some q
  | .malformed => none

/-- One raw upstream OHLCV row `[timestamp, open, high, low, close, volume]`
as returned by `exchange.fetch_ohlcv` (timestamp in epoch milliseconds). -/
structure RawCandle where
  ts : Nat
  op : Rv
  hi : Rv
  lo : Rv
  cl : Rv
  vol : Rv
deriving DecidableEq, Repr

/-- A fetched candle after column-wise numeric coercion: a field is `none`
when the upstream value was malformed. -/
structure Candle where
  ts : Nat
  op : Option Int
  hi : Option Int
  lo : Option Int
  cl : Option Int
  vol : Option Int
deriving DecidableEq, Repr

/-- `pd.to_numeric(errors='coerce')` applied to the five OHLCV columns of one
row (fetchers.py lines 196-197); the timestamp column is untouched. -/
def coerceCandle (r : RawCandle) : Candle :=
  ⟨r.ts, coerceRv r.op, coerceRv r.hi, coerceRv r.lo, coerceRv r.cl, coerceRv r.vol⟩

/-- `OKXDataFetcher._get_timeframe_ms` (fetchers.py lines 206-217): the fixed
seven-entry table; any other timeframe string falls back to one minute. -/
def okxTimeframeMs (timeframe : String) : Nat :=
  if timeframe = "1m" then 60 * 1000
  else if timeframe = "5m" then 5 * 60 * 1000
  else if timeframe = "15m" then 15 * 60 * 1000
  else if timeframe = "30m" then 30 * 60 * 1000
  else if timeframe = "1h" then 60 * 60 * 1000
  else if timeframe = "2h" then 2 * 60 * 60 * 1000
  else if timeframe = "1d" then 24 * 60 * 60 * 1000
  else 60 * 1000

/-- `DataFeedEngine._get_timeframe_delta` (engine.py lines 402-413), with each
`timedelta` value expressed in milliseconds; any timeframe string outside the
table falls back to `timedelta(minutes=1)`. -/
def engineTimeframeDeltaMs (timeframe : String) : Nat :=
  if timeframe = "1m" then 60000
  else if timeframe = "5m" then 5 * 60000
  else if timeframe = "15m" then 15 * 60000
  else if timeframe = "30m" then 30 * 60000
  else if timeframe = "1h" then 60 * 60000
  else if timeframe = "2h" then 2 * 60 * 60000
  else if timeframe = "1d" then 24 * 60 * 60000
  else 60000

/-- `df.drop_duplicates('timestamp')` (fetchers.py line 189): keep the first
row carrying each timestamp; `seen` accumulates the timestamps already kept
(the top-level call passes `[]`). -/
def dedupByTs (seen : List Nat) : List RawCandle → List RawCandle
  | [] => []
  | c :: cs =>
    if c.ts ∈ seen then dedupByTs seen cs
    else c :: dedupByTs (c.ts :: seen) cs

/-- `df.sort_values('timestamp')` (fetchers.py line 189): sort ascending by
timestamp (timestamps are unique after `dedupByTs`, so stability is moot). -/
def sortByTs (l : List RawCandle) : List RawCandle :=
  l.insertionSort (fun a b => a.ts ≤ b.ts)

/-- The paginated fetch loop of `OKXDataFetcher.fetch_data` (fetchers.py lines
140-179).  `page callIdx since` models one `exchange.fetch_ohlcv` call; the
call index stands for a mock adapter's internal call counter, and `none`
models a raised `ccxt.BaseError`, which breaks the loop.  `pageSize` is the
`min(limit, 100)` the code both requests and compares batch sizes against;
rows with timestamp beyond `endMs` are dropped and the cursor advances to the
last kept timestamp plus the timeframe duration.  `fuel` bounds the number of
iterations of this shallow embedding of the `while` loop. -/
def okxLoop (page : Nat → Nat → Option (List RawCandle)) (pageSize tfMs endMs : Nat) :
    Nat → Nat → Nat → List RawCandle
  | 0, _, _ => []
  | fuel + 1, call, cur =>
    if cur < endMs then
      match page call cur with
      | none => []
      | some raw =>
        if raw = [] then []
        else
          let filtered := raw.filter (fun cd => cd.ts ≤ endMs)
          match filtered.getLast? with
          | none => []
          | some lastC =>
            filtered ++
              (if raw.length < pageSize then []
               else okxLoop page pageSize tfMs endMs fuel (call + 1) (lastC.ts + tfMs))
    else []

/-- DataFrame post-processing of `OKXDataFetcher.fetch_data` (fetchers.py
lines 181-197): empty-result check, deduplication by timestamp keeping the
first row, ascending sort, then `pd.to_numeric(errors='coerce')` per column.
No row is dropped here: the code has no `dropna`. -/
def okxConvert (allData : List RawCandle) : List Candle :=
  if allData = [] then []
  else (sortByTs (dedupByTs [] allData)).map coerceCandle

/-- `OKXDataFetcher.fetch_data` (fetchers.py lines 107-204) for an initialized
exchange and explicit window `[startMs, endMs]`: run the pagination loop with
page size `min limit 100` and the timeframe's cursor step, then post-process. -/
def okxFetchData (page : Nat → Nat → Option (List RawCandle)) (limit : Nat)
    (timeframe : String) (startMs endMs fuel : Nat) : List Candle :=
  okxConvert (okxLoop page (min limit 100) (okxTimeframeMs timeframe) endMs fuel 0 startMs)

/-- Timestamps of a mock upstream holding `numCandles` consecutive candles
spaced `tfMs` apart starting at `base`. -/
def gridList (base tfMs numCandles : Nat) : List Nat :=
  (List.range numCandles).map (fun i => base + i * tfMs)

/-- A well-formed upstream row at timestamp `t`. -/
def mkGrid (t : Nat) : RawCandle :=
  ⟨t, .num 1, .num 1, .num 1, .num 1, .num 1⟩

/-- One call of a mock rate-limited exchange over the grid upstream: at most
`pageSize` of the earliest candles with timestamp ≥ `since`, ascending — the
`since`/`limit` contract of `fetch_ohlcv`. -/
def gridBatch (base tfMs numCandles pageSize since : Nat) : List RawCandle :=
  ((((gridList base tfMs numCandles).filter (fun t => since ≤ t)).take pageSize).map mkGrid)

/-- A stateless adapter that never raises. -/
def liftPage (good : Nat → List RawCandle) (_call since : Nat) : Option (List RawCandle) :=
  some (good since)

/-- The grid upstream as a page function. -/
def gridPage (base tfMs numCandles pageSize : Nat) : Nat → Nat → Option (List RawCandle) :=
  liftPage (gridBatch base tfMs numCandles pageSize)

/-- A mock adapter that raises a transient error (`ccxt.BaseError`) on its
`n`-th page call (0-based call index `n`) and behaves like `good` before. -/
def erroringAt (n : Nat) (good : Nat → List RawCandle) (call since : Nat) :
    Option (List RawCandle) :=
  if call < n then some (good since) else none

/-- One row of the `market_data` table (database.py lines 25-40); the `id` and
`created_at` columns are omitted as no modelled operation reads them. -/
structure Row where
  symbol : String
  exchange : String
  timeframe : String
  ts : Nat
  op : Option Int
  hi : Option Int
  lo : Option Int
  cl : Option Int
  vol : Option Int
deriving DecidableEq, Repr

/-- The store's state: the rows of `market_data` in insertion order. -/
abbrev Db := List Row

/-- The row `save_data` builds from one candle (database.py lines 73-84). -/
def rowOf (symbol exchange timeframe : String) (c : Candle) : Row :=
  ⟨symbol, exchange, timeframe, c.ts, c.op, c.hi, c.lo, c.cl, c.vol⟩

/-- A row with the natural key `(symbol, exchange, timeframe, ts)` exists:
what the `UNIQUE(symbol, exchange, timeframe, timestamp)` constraint that
`INSERT OR IGNORE` consults checks. -/
def hasKey (db : Db) (symbol exchange timeframe : String) (ts : Nat) : Prop :=
  ∃ r ∈ db, r.symbol = symbol ∧ r.exchange = exchange ∧ r.timeframe = timeframe ∧ r.ts = ts

instance (db : Db) (s e t : String) (ts : Nat) : Decidable (hasKey db s e t ts) :=
  List.decidableBEx _ db

/-- `DatabaseManager.save_data` (database.py lines 55-105): row-by-row
`INSERT OR IGNORE` on the natural key, counting only genuinely new rows. -/
def saveData (db : Db) (data : List Candle) (symbol exchange timeframe : String) :
    Db × Nat :=
  match data with
  | [] => (db, 0)
  | c :: cs =>
    if hasKey db symbol exchange timeframe c.ts then
      saveData db cs symbol exchange timeframe
    else
      let rest := saveData (db ++ [rowOf symbol exchange timeframe c]) cs symbol exchange timeframe
      (rest.1, rest.2 + 1)

/-- Does a row belong to the series `(symbol, exchange, timeframe)`?  The
exact-match WHERE clause of `get_data` and `get_latest_timestamp`. -/
def inSeries (symbol exchange timeframe : String) (r : Row) : Bool :=
  decide (r.symbol = symbol ∧ r.exchange = exchange ∧ r.timeframe = timeframe)

/-- `MAX` over a list of timestamps, `none` when empty. -/
def maxTs? : List Nat → Option Nat
  | [] => none
  | x :: xs =>
    some (match maxTs? xs with
          | none => x
          | some m => max x m)

/-- `DatabaseManager.get_latest_timestamp` (database.py lines 156-176):
`SELECT MAX(timestamp)` over one series. -/
def getLatestTimestamp (db : Db) (symbol exchange timeframe : String) : Option Nat :=
  maxTs? ((db.filter (inSeries symbol exchange timeframe)).map Row.ts)

/-- The optional inclusive bounds of `get_data` (database.py lines 133-139). -/
def tsInRange (startMs endMs : Option Nat) (r : Row) : Bool :=
  (match startMs with | none => true | some s => decide (s ≤ r.ts)) &&
  (match endMs with | none => true | some e => decide (r.ts ≤ e))

/-- `DatabaseManager.get_data` (database.py lines 107-154): filter by series
key and optional inclusive bounds, `ORDER BY timestamp`, optional `LIMIT`. -/
def getData (db : Db) (symbol exchange timeframe : String)
    (startMs endMs : Option Nat) (limit : Option Nat) : List Row :=
  let rows := (db.filter (fun r => inSeries symbol exchange timeframe r &&
      tsInRange startMs endMs r)).insertionSort (fun a b => a.ts ≤ b.ts)
  match limit with
  | none => rows
  | some n => rows.take n

/-- Python truthiness of an optional string parameter (`if symbol:` in
database.py lines 198, 309 etc): `None` and the empty string are both falsy
and contribute no WHERE condition. -/
def condHolds (p : Option String) (field : String) : Bool :=
  match p with
  | none => true
  | some s => if s = "" then true else decide (field = s)

/-- The conjunction of the WHERE conditions `get_data_count` and `clear_data`
build from their truthy optional filters. -/
def matchesFilters (symbol exchange timeframe : Option String) (r : Row) : Bool :=
  condHolds symbol r.symbol && condHolds exchange r.exchange &&
    condHolds timeframe r.timeframe

/-- `DatabaseManager.get_data_count` (database.py lines 178-215). -/
def getDataCount (db : Db) (symbol exchange timeframe : Option String) : Nat :=
  (db.filter (matchesFilters symbol exchange timeframe)).length

/-- `DatabaseManager.clear_data` (database.py lines 289-328): DELETE with the
same truthy optional filters; returns the remaining rows and
`cursor.rowcount`, the number of deleted rows. -/
def clearData (db : Db) (symbol exchange timeframe : Option String) : Db × Nat :=
  (db.filter (fun r => !(matchesFilters symbol exchange timeframe r)),
   (db.filter (matchesFilters symbol exchange timeframe)).length)

/-- One inner iteration of `DataFeedEngine.fetch_crypto_data` (engine.py lines
100-141) for a single (exchange, symbol, timeframe) tuple: read the high-water
mark; `if latest_timestamp:` tests it with Python truthiness, so both `None`
and `0` fall back to the configured default window start, while a non-zero
mark starts the window one timeframe after it.  Skip when the window start
has reached `now`, otherwise fetch and save any non-empty result.
`fetch start end` abstracts `fetcher.fetch_data`; all times are epoch
milliseconds (the code's round trip through `datetime` is modelled exactly on
the millisecond values). -/
def fetchCryptoStep (db : Db) (fetch : Nat → Nat → List Candle)
    (symbol exchange timeframe : String) (defaultStartMs nowMs : Nat) : Db × Nat :=
  let fetchStart :=
    match getLatestTimestamp db symbol exchange timeframe with
    | some t =>
      if t = 0 then defaultStartMs else t + engineTimeframeDeltaMs timeframe
    | none => defaultStartMs
  if nowMs ≤ fetchStart then (db, 0)
  else
    let data := fetch fetchStart nowMs
    if data = [] then (db, 0)
    else saveData db data symbol exchange timeframe

/-- `DataLoader._load_data` (data_loader.py lines 100-122), crypto path,
reduced to its store interactions: initial read; when empty, one direct
`fetcher.fetch_data` call whose return value the code discards (line 116
ignores it and nothing writes to the store), then one re-read of the
unchanged store.  Returns the rows handed to backtrader, or `none` when
loading fails. -/
def loadDataCrypto (db : Db) (fetch : Nat → Nat → List Candle)
    (symbol exchange timeframe : String) (startMs endMs : Nat) : Option (List Row) :=
  let data := getData db symbol exchange timeframe (some startMs) (some endMs) none
  if data = [] then
    let data2 :=
      let _fetched := fetch startMs endMs
      getData db symbol exchange timeframe (some startMs) (some endMs) none
    if data2 = [] then none else some data2
  else some data

/-- A concrete stored row, used by witnesses and counterexamples. -/
def exRow (symbol exchange timeframe : String) (ts : Nat) : Row :=
  ⟨symbol, exchange, timeframe, ts, some 1, some 1, some 1, some 1, some 1⟩

/-! ## Basic lemmas about the timeframe tables -/

theorem okxTimeframeMs_pos (timeframe : String) : 0 < okxTimeframeMs timeframe := by
  unfold okxTimeframeMs; split_ifs <;> norm_num

theorem engineTimeframeDeltaMs_pos (timeframe : String) :
    0 < engineTimeframeDeltaMs timeframe := by
  unfold engineTimeframeDeltaMs; split_ifs <;> norm_num

/-- The engine's `timedelta` table and the fetcher's millisecond table agree on
every timeframe string (same seven keys, same values, same default). -/
theorem engineTimeframeDeltaMs_eq_okx (timeframe : String) :
    engineTimeframeDeltaMs timeframe = okxTimeframeMs timeframe := by
  unfold engineTimeframeDeltaMs okxTimeframeMs; split_ifs <;> norm_num

/-! ## Lemmas about `maxTs?` (SQL `MAX`) -/

theorem maxTs?_eq_none_iff (l : List Nat) : maxTs? l = none ↔ l = [] := by
  cases l <;> simp [maxTs?]

theorem maxTs?_mem {l : List Nat} {m : Nat} (h : maxTs? l = some m) : m ∈ l := by
  induction l generalizing m with
  | nil => simp [maxTs?] at h
  | cons x xs ih =>
    simp only [maxTs?, Option.some.injEq] at h
    cases hx : maxTs? xs with
    | none => rw [hx] at h; simp only [] at h; simp [← h]
    | some m' =>
      rw [hx] at h; simp only [] at h
      rcases max_choice x m' with hc | hc
      · rw [hc] at h; simp [← h]
      · rw [hc] at h; subst h; exact List.mem_cons_of_mem _ (ih hx)

theorem le_maxTs? {l : List Nat} {a m : Nat} (ha : a ∈ l) (h : maxTs? l = some m) :
    a ≤ m := by
  induction l generalizing m with
  | nil => simp at ha
  | cons x xs ih =>
    simp only [maxTs?, Option.some.injEq] at h
    rcases List.mem_cons.mp ha with rfl | ha'
    · cases hx : maxTs? xs with
      | none => rw [hx] at h; simp only [] at h; omega
      | some m' => rw [hx] at h; simp only [] at h; subst h; exact le_max_left _ _
    · cases hx : maxTs? xs with
      | none => rw [maxTs?_eq_none_iff] at hx; subst hx; simp at ha'
      | some m' =>
        rw [hx] at h; simp only [] at h; subst h
        exact le_trans (ih ha' hx) (le_max_right _ _)

/-! ## Lemmas about the store operations -/

theorem mem_saveData_of_mem {db : Db} {l : List Candle} {s e t : String} {r : Row}
    (h : r ∈ db) : r ∈ (saveData db l s e t).1 := by
  induction l generalizing db with
  | nil => simpa [saveData]
  | cons c cs ih =>
    by_cases hk : hasKey db s e t c.ts
    · simp only [saveData]; rw [if_pos hk]; exact ih h
    · simp only [saveData]; rw [if_neg hk]
      exact ih (List.mem_append_left _ h)

theorem mem_of_mem_saveData {db : Db} {l : List Candle} {s e t : String} {r : Row}
    (h : r ∈ (saveData db l s e t).1) : r ∈ db ∨ ∃ c ∈ l, r = rowOf s e t c := by
  induction l generalizing db with
  | nil => simp [saveData] at h; exact Or.inl h
  | cons c cs ih =>
    by_cases hk : hasKey db s e t c.ts
    · simp only [saveData] at h; rw [if_pos hk] at h
      rcases ih h with h' | ⟨c', hc', rfl⟩
      · exact Or.inl h'
      · exact Or.inr ⟨c', List.mem_cons_of_mem _ hc', rfl⟩
    · simp only [saveData] at h; rw [if_neg hk] at h
      rcases ih h with h' | ⟨c', hc', rfl⟩
      · rcases List.mem_append.mp h' with h'' | h''
        · exact Or.inl h''
        · simp only [List.mem_singleton] at h''
          exact Or.inr ⟨c, List.mem_cons_self _ _, h''⟩
      · exact Or.inr ⟨c', List.mem_cons_of_mem _ hc', rfl⟩

theorem hasKey_mono {db : Db} {l : List Candle} {s e t : String} {ts : Nat}
    (h : hasKey db s e t ts) : hasKey (saveData db l s e t).1 s e t ts := by
  obtain ⟨r, hr, hkey⟩ := h
  exact ⟨r, mem_saveData_of_mem hr, hkey⟩

theorem hasKey_saveData_of_mem_batch {db : Db} {l : List Candle} {s e t : String}
    {c : Candle} (hc : c ∈ l) : hasKey (saveData db l s e t).1 s e t c.ts := by
  induction l generalizing db with
  | nil => simp at hc
  | cons c' cs ih =>
    rcases List.mem_cons.mp hc with rfl | hc'
    · by_cases hk : hasKey db s e t c.ts
      · simp only [saveData]; rw [if_pos hk]; exact hasKey_mono hk
      · simp only [saveData]; rw [if_neg hk]
        exact hasKey_mono ⟨rowOf s e t c, List.mem_append_right _ (List.mem_singleton_self _),
          rfl, rfl, rfl, rfl⟩
    · by_cases hk : hasKey db s e t c'.ts
      · simp only [saveData]; rw [if_pos hk]; exact ih hc'
      · simp only [saveData]; rw [if_neg hk]; exact ih hc'

theorem saveData_of_all_present {db : Db} {l : List Candle} {s e t : String}
    (h : ∀ c ∈ l, hasKey db s e t c.ts) : saveData db l s e t = (db, 0) := by
  induction l with
  | nil => rfl
  | cons c cs ih =>
    simp only [saveData]; rw [if_pos (h c (List.mem_cons_self _ _))]
    exact ih fun c' hc' => h c' (List.mem_cons_of_mem _ hc')

/-- C2: for every batch and series key, a second `save_data` call with the same
batch inserts 0 new rows and leaves the stored rows exactly as after the first
call (`INSERT OR IGNORE` on the natural key never overwrites). -/
theorem save_data_idempotent (db : Db) (batch : List Candle) (s e t : String) :
    saveData (saveData db batch s e t).1 batch s e t = ((saveData db batch s e t).1, 0) :=
  saveData_of_all_present fun _ hc => hasKey_saveData_of_mem_batch hc

/-! ## C4: query ordering invariant -/

/-- Two rows share the natural storage key. -/
def sameNatKey (r1 r2 : Row) : Prop :=
  r1.symbol = r2.symbol ∧ r1.exchange = r2.exchange ∧
    r1.timeframe = r2.timeframe ∧ r1.ts = r2.ts

/-- The invariant the `UNIQUE(symbol, exchange, timeframe, timestamp)`
constraint maintains: no two stored rows share a natural key. -/
def KeyUnique (db : Db) : Prop := db.Pairwise (fun r1 r2 => ¬ sameNatKey r1 r2)

/-- C4: on any store state satisfying the UNIQUE-constraint invariant, every
`get_data` query (any series key, optional inclusive bounds, optional limit)
returns rows in strictly ascending timestamp order with no duplicates. -/
theorem get_data_strictly_ascending (db : Db) (s e t : String)
    (startMs endMs : Option Nat) (limit : Option Nat) (h : KeyUnique db) :
    (getData db s e t startMs endMs limit).Pairwise (fun a b => a.ts < b.ts) := by
  unfold getData
  set p : Row → Bool :=
    fun r => inSeries s e t r && tsInRange startMs endMs r with hp
  set fl := db.filter p with hfl
  -- rows surviving the filter have pairwise-distinct timestamps
  have hne : fl.Pairwise (fun a b => a.ts ≠ b.ts) := by
    have h1 : fl.Pairwise (fun r1 r2 => ¬ sameNatKey r1 r2) :=
      h.sublist (List.filter_sublist db)
    refine h1.imp_of_mem ?_
    intro a b ha hb hnk
    have ha' := (List.mem_filter.mp ha).2
    have hb' := (List.mem_filter.mp hb).2
    simp only [hp, Bool.and_eq_true, inSeries, decide_eq_true_eq] at ha' hb'
    intro hts
    exact hnk ⟨ha'.1.1.trans hb'.1.1.symm, ha'.1.2.1.trans hb'.1.2.1.symm,
      ha'.1.2.2.trans hb'.1.2.2.symm, hts⟩
  -- the sort is ascending, and permutation preserves distinctness
  haveI : IsTotal Row (fun a b => a.ts ≤ b.ts) := ⟨fun a b => Nat.le_total a.ts b.ts⟩
  haveI : IsTrans Row (fun a b => a.ts ≤ b.ts) := ⟨fun _ _ _ => Nat.le_trans⟩
  have hsorted : (fl.insertionSort (fun a b => a.ts ≤ b.ts)).Pairwise
      (fun a b => a.ts ≤ b.ts) := List.sorted_insertionSort _ fl
  have hperm := List.perm_insertionSort (fun a b => a.ts ≤ b.ts) fl
  have hne' : (fl.insertionSort (fun a b => a.ts ≤ b.ts)).Pairwise
      (fun a b => a.ts ≠ b.ts) :=
    (List.Perm.pairwise_iff (fun hab => Ne.symm hab) hperm).mpr hne
  have hlt : (fl.insertionSort (fun a b => a.ts ≤ b.ts)).Pairwise
      (fun a b => a.ts < b.ts) :=
    (hsorted.and hne').imp fun hab => Nat.lt_of_le_of_ne hab.1 hab.2
  cases limit with
  | none => exact hlt
  | some n => exact hlt.sublist (List.take_sublist _ _)

/-- C4 witness at a concrete store state. -/
theorem get_data_strictly_ascending_witness :
    KeyUnique [⟨"BTC/USDT", "okx", "1h", 2, some 1, some 1, some 1, some 1, some 1⟩,
               ⟨"BTC/USDT", "okx", "1h", 1, some 2, some 2, some 2, some 2, some 2⟩] ∧
    (getData [⟨"BTC/USDT", "okx", "1h", 2, some 1, some 1, some 1, some 1, some 1⟩,
              ⟨"BTC/USDT", "okx", "1h", 1, some 2, some 2, some 2, some 2, some 2⟩]
      "BTC/USDT" "okx" "1h" none none none).Pairwise (fun a b => a.ts < b.ts) :=
  ⟨by simp [KeyUnique, sameNatKey], by
    exact get_data_strictly_ascending _ "BTC/USDT" "okx" "1h" none none none
      (by simp [KeyUnique, sameNatKey])⟩

/-! ## C6: purge frame property -/

/-- C6 (amended to non-empty filter strings): `clear_data` with a single
non-empty symbol filter deletes exactly the rows of that symbol, leaves every
other row unchanged, and reports exactly the number of removed rows; the same
frame property holds for the exchange and timeframe filters. -/
theorem clear_data_frame (db : Db) (S E T : String)
    (hS : S ≠ "") (hE : E ≠ "") (hT : T ≠ "") :
    clearData db (some S) none none =
      (db.filter (fun r => !decide (r.symbol = S)),
       (db.filter (fun r => decide (r.symbol = S))).length) ∧
    clearData db none (some E) none =
      (db.filter (fun r => !decide (r.exchange = E)),
       (db.filter (fun r => decide (r.exchange = E))).length) ∧
    clearData db none none (some T) =
      (db.filter (fun r => !decide (r.timeframe = T)),
       (db.filter (fun r => decide (r.timeframe = T))).length) := by
  unfold clearData matchesFilters condHolds
  simp [hS, hE, hT]

/-- C6 counterexample: with the (falsy) empty-string symbol filter,
`clear_data` deletes every row of the store — not only the rows whose symbol
equals the filter value — and its count also disagrees with the number of
matching rows, refuting the claim for the symbol value `""`. -/
theorem clear_data_empty_symbol_counterexample :
    (clearData [exRow "" "okx" "1h" 1, exRow "BTC/USDT" "okx" "1h" 2]
        (some "") none none).1 ≠
      [exRow "" "okx" "1h" 1, exRow "BTC/USDT" "okx" "1h" 2].filter
        (fun r => !decide (r.symbol = "")) ∧
    (clearData [exRow "" "okx" "1h" 1, exRow "BTC/USDT" "okx" "1h" 2]
        (some "") none none).2 ≠
      ([exRow "" "okx" "1h" 1, exRow "BTC/USDT" "okx" "1h" 2].filter
        (fun r => decide (r.symbol = ""))).length := by
  constructor <;> decide

/-- C6 witness at a concrete store of two symbols. -/
theorem clear_data_frame_witness :
    ("BTC/USDT" : String) ≠ "" ∧ ("okx" : String) ≠ "" ∧ ("1h" : String) ≠ "" ∧
    (clearData [exRow "BTC/USDT" "okx" "1h" 1, exRow "ETH/USDT" "okx" "1d" 2]
        (some "BTC/USDT") none none =
      ([exRow "BTC/USDT" "okx" "1h" 1, exRow "ETH/USDT" "okx" "1d" 2].filter
          (fun r => !decide (r.symbol = "BTC/USDT")),
       ([exRow "BTC/USDT" "okx" "1h" 1, exRow "ETH/USDT" "okx" "1d" 2].filter
          (fun r => decide (r.symbol = "BTC/USDT"))).length) ∧
    clearData [exRow "BTC/USDT" "okx" "1h" 1, exRow "ETH/USDT" "okx" "1d" 2]
        none (some "okx") none =
      ([exRow "BTC/USDT" "okx" "1h" 1, exRow "ETH/USDT" "okx" "1d" 2].filter
          (fun r => !decide (r.exchange = "okx")),
       ([exRow "BTC/USDT" "okx" "1h" 1, exRow "ETH/USDT" "okx" "1d" 2].filter
          (fun r => decide (r.exchange = "okx"))).length) ∧
    clearData [exRow "BTC/USDT" "okx" "1h" 1, exRow "ETH/USDT" "okx" "1d" 2]
        none none (some "1h") =
      ([exRow "BTC/USDT" "okx" "1h" 1, exRow "ETH/USDT" "okx" "1d" 2].filter
          (fun r => !decide (r.timeframe = "1h")),
       ([exRow "BTC/USDT" "okx" "1h" 1, exRow "ETH/USDT" "okx" "1d" 2].filter
          (fun r => decide (r.timeframe = "1h"))).length)) :=
  ⟨by decide, by decide, by decide,
   clear_data_frame _ "BTC/USDT" "okx" "1h" (by decide) (by decide) (by decide)⟩

/-! ## C9: unknown timeframes fall back to one minute -/

/-- C9: every timeframe string outside the fixed seven-entry table maps to the
one-minute duration in both the fetcher's millisecond table (used for cursor
advancement) and the engine's delta table (used for the incremental-sync start
offset). -/
theorem unknown_timeframe_defaults_to_one_minute (timeframe : String)
    (h : timeframe ∉ (["1m", "5m", "15m", "30m", "1h", "2h", "1d"] : List String)) :
    okxTimeframeMs timeframe = 60 * 1000 ∧ engineTimeframeDeltaMs timeframe = 60000 := by
  simp only [List.mem_cons, List.not_mem_nil, or_false, not_or] at h
  obtain ⟨h1, h2, h3, h4, h5, h6, h7⟩ := h
  refine ⟨?_, ?_⟩ <;>
    · first
      | (unfold okxTimeframeMs; simp [h1, h2, h3, h4, h5, h6, h7])
      | (unfold engineTimeframeDeltaMs; simp [h1, h2, h3, h4, h5, h6, h7])

/-- C9 witness at the unrecognized timeframe string `"4h"`. -/
theorem unknown_timeframe_defaults_witness :
    ("4h" : String) ∉ (["1m", "5m", "15m", "30m", "1h", "2h", "1d"] : List String) ∧
    (okxTimeframeMs "4h" = 60 * 1000 ∧ engineTimeframeDeltaMs "4h" = 60000) :=
  ⟨by decide, unknown_timeframe_defaults_to_one_minute "4h" (by decide)⟩

/-! ## C10: empty-string filters behave like absent filters -/

/-- C10: `clear_data` and `get_data_count` test their optional filters for
Python truthiness, so an empty-string filter behaves exactly like an absent
one in every position: `clear_data(symbol="")` deletes every row and
`get_data_count(symbol="")` counts every row. -/
theorem empty_string_filter_like_absent (db : Db) :
    (∀ e t, clearData db (some "") e t = clearData db none e t) ∧
    (∀ s t, clearData db s (some "") t = clearData db s none t) ∧
    (∀ s e, clearData db s e (some "") = clearData db s e none) ∧
    (∀ e t, getDataCount db (some "") e t = getDataCount db none e t) ∧
    (∀ s t, getDataCount db s (some "") t = getDataCount db s none t) ∧
    (∀ s e, getDataCount db s e (some "") = getDataCount db s e none) ∧
    clearData db (some "") none none = (([] : Db), db.length) ∧
    getDataCount db (some "") none none = db.length := by
  unfold clearData getDataCount matchesFilters condHolds
  simp

/-! ## Lemmas about the fetcher's DataFrame post-processing -/

theorem mem_of_mem_dedupByTs {l : List RawCandle} {seen : List Nat} {c : RawCandle}
    (h : c ∈ dedupByTs seen l) : c ∈ l := by
  induction l generalizing seen with
  | nil => simp [dedupByTs] at h
  | cons c' cs ih =>
    rw [dedupByTs] at h
    split at h
    · exact List.mem_cons_of_mem _ (ih h)
    · rcases List.mem_cons.mp h with rfl | h'
      · exact List.mem_cons_self _ _
      · exact List.mem_cons_of_mem _ (ih h')

theorem ts_mem_dedupByTs {l : List RawCandle} {seen : List Nat} {t : Nat}
    (h : t ∈ l.map RawCandle.ts) (hs : t ∉ seen) :
    t ∈ (dedupByTs seen l).map RawCandle.ts := by
  induction l generalizing seen with
  | nil => simp at h
  | cons c' cs ih =>
    rw [dedupByTs]
    simp only [List.map_cons, List.mem_cons] at h
    split
    case isTrue hmem =>
      rcases h with rfl | h
      · exact absurd hmem hs
      · exact ih h hs
    case isFalse hmem =>
      simp only [List.map_cons, List.mem_cons]
      rcases h with rfl | h
      · exact Or.inl rfl
      · by_cases hts : t = c'.ts
        · exact Or.inl hts
        · exact Or.inr (ih h (by simp [hts, hs]))

/-- Every timestamp `dedupByTs` keeps avoids the accumulator, and the kept
timestamps are pairwise distinct. -/
theorem dedupByTs_nodup_aux (l : List RawCandle) :
    ∀ seen : List Nat, ((dedupByTs seen l).map RawCandle.ts).Nodup ∧
      ∀ t ∈ (dedupByTs seen l).map RawCandle.ts, t ∉ seen := by
  induction l with
  | nil => intro seen; simp [dedupByTs]
  | cons c' cs ih =>
    intro seen
    rw [dedupByTs]
    split
    case isTrue hmem => exact ih seen
    case isFalse hmem =>
      obtain ⟨ihn, ihs⟩ := ih (c'.ts :: seen)
      simp only [List.map_cons, List.nodup_cons]
      refine ⟨⟨fun hc => ?_, ihn⟩, ?_⟩
      · exact (ihs _ hc) (List.mem_cons_self _ _)
      · intro t ht
        rcases List.mem_cons.mp ht with rfl | ht'
        · exact hmem
        · exact fun hts => (ihs t ht') (List.mem_cons_of_mem _ hts)

theorem dedupByTs_ts_nodup (l : List RawCandle) :
    ((dedupByTs [] l).map RawCandle.ts).Nodup := (dedupByTs_nodup_aux l []).1

theorem sortByTs_perm (l : List RawCandle) : List.Perm (sortByTs l) l :=
  List.perm_insertionSort _ l

theorem sortByTs_sorted (l : List RawCandle) :
    (sortByTs l).Pairwise (fun a b => a.ts ≤ b.ts) := by
  haveI : IsTotal RawCandle (fun a b => a.ts ≤ b.ts) := ⟨fun a b => Nat.le_total a.ts b.ts⟩
  haveI : IsTrans RawCandle (fun a b => a.ts ≤ b.ts) := ⟨fun _ _ _ => Nat.le_trans⟩
  exact List.sorted_insertionSort _ l

/-- The final output of the fetch pipeline is strictly ascending by timestamp
(and hence duplicate-free), whatever the pagination loop accumulated. -/
theorem okxConvert_pairwise (l : List RawCandle) :
    (okxConvert l).Pairwise (fun a b => a.ts < b.ts) := by
  unfold okxConvert
  split
  · exact List.Pairwise.nil
  · rw [List.pairwise_map]
    have hle := sortByTs_sorted (dedupByTs [] l)
    have hnd : ((sortByTs (dedupByTs [] l)).map RawCandle.ts).Nodup :=
      (List.Perm.nodup_iff ((sortByTs_perm (dedupByTs [] l)).map RawCandle.ts)).mpr
        (dedupByTs_ts_nodup l)
    have hne : (sortByTs (dedupByTs [] l)).Pairwise (fun a b => a.ts ≠ b.ts) :=
      List.pairwise_map.mp hnd
    exact (hle.and hne).imp fun hab => by
      simpa [coerceCandle] using Nat.lt_of_le_of_ne hab.1 hab.2

theorem mem_okxConvert {l : List RawCandle} {c : Candle} (h : c ∈ okxConvert l) :
    ∃ rc ∈ l, c = coerceCandle rc := by
  unfold okxConvert at h
  split at h
  · simp at h
  · obtain ⟨rc, hrc, rfl⟩ := List.mem_map.mp h
    exact ⟨rc, mem_of_mem_dedupByTs ((sortByTs_perm (dedupByTs [] l)).mem_iff.mp hrc), rfl⟩

theorem ts_mem_okxConvert {l : List RawCandle} {t : Nat}
    (h : t ∈ l.map RawCandle.ts) : ∃ c ∈ okxConvert l, c.ts = t := by
  have hl : l ≠ [] := by rintro rfl; simp at h
  unfold okxConvert
  rw [if_neg hl]
  have h1 : t ∈ (dedupByTs [] l).map RawCandle.ts := ts_mem_dedupByTs h (by simp)
  have h2 : t ∈ (sortByTs (dedupByTs [] l)).map RawCandle.ts :=
    (((sortByTs_perm (dedupByTs [] l)).map RawCandle.ts).mem_iff).mpr h1
  obtain ⟨rc, hrc, rfl⟩ := List.mem_map.mp h2
  exact ⟨coerceCandle rc, List.mem_map_of_mem _ hrc, rfl⟩

/-! ## The pagination loop over the grid upstream -/

theorem mem_gridList {base tf M t : Nat} :
    t ∈ gridList base tf M ↔ ∃ i, i < M ∧ base + i * tf = t := by
  simp [gridList]

theorem gridList_pairwise {base tf M : Nat} (htf : 0 < tf) :
    (gridList base tf M).Pairwise (· < ·) := by
  unfold gridList
  rw [List.pairwise_map]
  exact (List.pairwise_lt_range M).imp fun hij =>
    Nat.add_lt_add_left (Nat.mul_lt_mul_of_lt_of_le hij (le_refl tf) htf) base

/-- Advancing one timeframe from a grid point strictly below another grid
point stays at or below the latter. -/
theorem grid_step_le {base tf : Nat} (_htf : 0 < tf) {i j : Nat}
    (h : base + i * tf < base + j * tf) : base + i * tf + tf ≤ base + j * tf := by
  have h1 : i * tf < j * tf := by omega
  have hij : i < j := by
    by_contra hc
    push_neg at hc
    exact absurd h1 (not_lt.mpr (Nat.mul_le_mul_right _ hc))
  have h2 : (i + 1) * tf ≤ j * tf := Nat.mul_le_mul_right _ hij
  have h3 : i * tf + tf = (i + 1) * tf := by ring
  omega

theorem gridPage_eq (base tf M K call cur : Nat) :
    gridPage base tf M K call cur = some (gridBatch base tf M K cur) := rfl

theorem gridBatch_eq (base tf M K cur : Nat) :
    gridBatch base tf M K cur =
      (((gridList base tf M).filter (fun t => decide (cur ≤ t))).take K).map mkGrid := rfl

/-- One unfolding of the pagination loop against the grid adapter. -/
theorem okxLoop_grid_succ (base tf M K endMs fuel call cur : Nat) :
    okxLoop (gridPage base tf M K) K tf endMs (fuel + 1) call cur =
      if cur < endMs then
        if gridBatch base tf M K cur = [] then []
        else
          match ((gridBatch base tf M K cur).filter
              (fun cd => cd.ts ≤ endMs)).getLast? with
          | none => []
          | some lastC =>
            (gridBatch base tf M K cur).filter (fun cd => cd.ts ≤ endMs) ++
              (if (gridBatch base tf M K cur).length < K then []
               else okxLoop (gridPage base tf M K) K tf endMs fuel (call + 1)
                 (lastC.ts + tf))
      else [] := rfl

/-- Every row the loop accumulates against the grid adapter is a grid candle
inside `[cursor, endMs]`. -/
theorem okxLoop_grid_sound {base tf M K endMs : Nat} :
    ∀ fuel call cur c, c ∈ okxLoop (gridPage base tf M K) K tf endMs fuel call cur →
      c.ts ∈ gridList base tf M ∧ cur ≤ c.ts ∧ c.ts ≤ endMs := by
  intro fuel
  induction fuel with
  | zero => intro call cur c hc; simp [okxLoop] at hc
  | succ fuel ih =>
    intro call cur c hc
    rw [okxLoop_grid_succ] at hc
    by_cases hcur : cur < endMs
    swap
    · rw [if_neg hcur] at hc; simp at hc
    rw [if_pos hcur] at hc
    by_cases hraw : gridBatch base tf M K cur = []
    · rw [if_pos hraw] at hc; simp at hc
    rw [if_neg hraw] at hc
    cases hlast : ((gridBatch base tf M K cur).filter
        (fun cd => cd.ts ≤ endMs)).getLast? with
    | none => rw [hlast] at hc; simp at hc
    | some lastC =>
      rw [hlast] at hc
      rcases List.mem_append.mp hc with hmem | hmem
      · have h1 := List.mem_filter.mp hmem
        have h2 : c ∈ gridBatch base tf M K cur := h1.1
        rw [gridBatch_eq] at h2
        obtain ⟨w, hw, rfl⟩ := List.mem_map.mp h2
        have hw' := List.mem_filter.mp ((List.take_sublist _ _).subset hw)
        exact ⟨hw'.1, by simpa [mkGrid] using hw'.2, by simpa [mkGrid] using h1.2⟩
      · by_cases hlen : (gridBatch base tf M K cur).length < K
        · rw [if_pos hlen] at hmem; simp at hmem
        rw [if_neg hlen] at hmem
        obtain ⟨hg, hge, hle⟩ := ih (call + 1) (lastC.ts + tf) c hmem
        refine ⟨hg, ?_, hle⟩
        have hlmem := List.mem_of_mem_getLast? hlast
        have h1 := List.mem_filter.mp hlmem
        have h2 : lastC ∈ gridBatch base tf M K cur := h1.1
        rw [gridBatch_eq] at h2
        obtain ⟨w, hw, rfl⟩ := List.mem_map.mp h2
        have hw' := List.mem_filter.mp ((List.take_sublist _ _).subset hw)
        have hcw : cur ≤ w := by simpa using hw'.2
        have : (mkGrid w).ts = w := rfl
        omega

/-- A sorted-by-timestamp list's last element bounds every member. -/
theorem ts_le_getLast? {l : List RawCandle} {x lastC : RawCandle}
    (h : l.Pairwise (fun a b => a.ts ≤ b.ts)) (hx : x ∈ l)
    (hl : l.getLast? = some lastC) : x.ts ≤ lastC.ts := by
  induction l with
  | nil => simp at hx
  | cons a t iht =>
    cases t with
    | nil =>
      simp only [List.mem_singleton] at hx
      simp only [List.getLast?_singleton, Option.some.injEq] at hl
      subst hx; subst hl; exact le_refl _
    | cons b t' =>
      rw [List.getLast?_cons_cons] at hl
      rcases List.mem_cons.mp hx with rfl | hx'
      · exact List.rel_of_pairwise_cons h (List.mem_of_mem_getLast? hl)
      · exact iht h.of_cons hx' hl

/-- Against the grid adapter the loop accumulates rows in strictly ascending
timestamp order: the cursor rule never duplicates a page-boundary row. -/
theorem okxLoop_grid_sorted {base tf M K endMs : Nat} (htf : 0 < tf) :
    ∀ fuel call cur,
      (okxLoop (gridPage base tf M K) K tf endMs fuel call cur).Pairwise
        (fun a b => a.ts < b.ts) := by
  intro fuel
  induction fuel with
  | zero => intro call cur; simp [okxLoop]
  | succ fuel ih =>
    intro call cur
    rw [okxLoop_grid_succ]
    by_cases hcur : cur < endMs
    swap
    · rw [if_neg hcur]; exact List.Pairwise.nil
    rw [if_pos hcur]
    by_cases hraw : gridBatch base tf M K cur = []
    · rw [if_pos hraw]; exact List.Pairwise.nil
    rw [if_neg hraw]
    cases hlast : ((gridBatch base tf M K cur).filter
        (fun cd => cd.ts ≤ endMs)).getLast? with
    | none => exact List.Pairwise.nil
    | some lastC =>
      have hfilpair : ((gridBatch base tf M K cur).filter
          (fun cd => cd.ts ≤ endMs)).Pairwise (fun a b => a.ts < b.ts) := by
        refine List.Pairwise.sublist (List.filter_sublist _) ?_
        rw [gridBatch_eq, List.pairwise_map]
        have h1 : (((gridList base tf M).filter
            (fun t => decide (cur ≤ t))).take K).Pairwise (· < ·) :=
          ((gridList_pairwise htf).sublist (List.filter_sublist _)).sublist
            (List.take_sublist _ _)
        exact h1.imp fun hab => hab
      rw [List.pairwise_append]
      refine ⟨hfilpair, ?_, ?_⟩
      · by_cases hlen : (gridBatch base tf M K cur).length < K
        · rw [if_pos hlen]; exact List.Pairwise.nil
        · rw [if_neg hlen]; exact ih (call + 1) (lastC.ts + tf)
      · intro a ha b hb
        have ha' : a.ts ≤ lastC.ts := ts_le_getLast?
          (hfilpair.imp fun hab => le_of_lt hab) ha hlast
        by_cases hlen : (gridBatch base tf M K cur).length < K
        · rw [if_pos hlen] at hb; simp at hb
        · rw [if_neg hlen] at hb
          have := (okxLoop_grid_sound _ _ _ b hb).2.1
          omega

/-- Against the grid adapter the loop reaches every grid candle of the
half-open window `[cursor, endMs)`: no page boundary drops a row. -/
theorem okxLoop_grid_complete {base tf M K endMs : Nat} (htf : 0 < tf) (hK : 0 < K) :
    ∀ fuel call cur i, i < M → cur ≤ base + i * tf → base + i * tf < endMs →
      ((gridList base tf M).filter (fun t => decide (cur ≤ t))).length < fuel →
      ∃ c ∈ okxLoop (gridPage base tf M K) K tf endMs fuel call cur,
        c.ts = base + i * tf := by
  intro fuel
  induction fuel with
  | zero => intro call cur i _ _ _ hlen; omega
  | succ fuel ih =>
    intro call cur i hi hcur hend hlen
    have hcurlt : cur < endMs := lt_of_le_of_lt hcur hend
    have hgW : base + i * tf ∈ (gridList base tf M).filter (fun t => decide (cur ≤ t)) :=
      List.mem_filter.mpr ⟨mem_gridList.mpr ⟨i, hi, rfl⟩, by simpa using hcur⟩
    have hWne : (gridList base tf M).filter (fun t => decide (cur ≤ t)) ≠ [] := by
      intro h; rw [h] at hgW; simp at hgW
    have hrawne : gridBatch base tf M K cur ≠ [] := by
      rw [gridBatch_eq]
      simp only [ne_eq, List.map_eq_nil_iff, List.take_eq_nil_iff, not_or]
      exact ⟨by omega, hWne⟩
    rw [okxLoop_grid_succ, if_pos hcurlt, if_neg hrawne]
    by_cases htake : base + i * tf ∈
        ((gridList base tf M).filter (fun t => decide (cur ≤ t))).take K
    · -- the target candle lands in this page's kept rows
      have hgfil : mkGrid (base + i * tf) ∈ (gridBatch base tf M K cur).filter
          (fun cd => cd.ts ≤ endMs) := by
        rw [gridBatch_eq]
        refine List.mem_filter.mpr ⟨List.mem_map_of_mem _ htake, ?_⟩
        simp only [mkGrid, decide_eq_true_eq]
        omega
      cases hlast : ((gridBatch base tf M K cur).filter
          (fun cd => cd.ts ≤ endMs)).getLast? with
      | none =>
        rw [List.getLast?_eq_none_iff] at hlast
        rw [hlast] at hgfil; simp at hgfil
      | some lastC =>
        exact ⟨mkGrid (base + i * tf), List.mem_append_left _ hgfil, rfl⟩
    · -- the target lies beyond this (necessarily full) page: recurse
      have hKlt : K < ((gridList base tf M).filter (fun t => decide (cur ≤ t))).length := by
        by_contra hc
        push_neg at hc
        rw [List.take_of_length_le hc] at htake
        exact htake hgW
      have hgdrop : base + i * tf ∈
          ((gridList base tf M).filter (fun t => decide (cur ≤ t))).drop K := by
        have hsplit : base + i * tf ∈
            ((gridList base tf M).filter (fun t => decide (cur ≤ t))).take K ++
            ((gridList base tf M).filter (fun t => decide (cur ≤ t))).drop K := by
          rw [List.take_append_drop]; exact hgW
        rcases List.mem_append.mp hsplit with h | h
        · exact absurd h htake
        · exact h
      have hWpair : ((gridList base tf M).filter (fun t => decide (cur ≤ t))).Pairwise
          (· < ·) := (gridList_pairwise htf).sublist (List.filter_sublist _)
      have hcross : ∀ x ∈ ((gridList base tf M).filter (fun t => decide (cur ≤ t))).take K,
          x < base + i * tf := by
        intro x hx
        have hp : (((gridList base tf M).filter (fun t => decide (cur ≤ t))).take K ++
            ((gridList base tf M).filter (fun t => decide (cur ≤ t))).drop K).Pairwise
            (· < ·) := by rw [List.take_append_drop]; exact hWpair
        exact (List.pairwise_append.mp hp).2.2 x hx _ hgdrop
      have hrawlen : (gridBatch base tf M K cur).length = K := by
        rw [gridBatch_eq, List.length_map, List.length_take]
        omega
      have hfil : (gridBatch base tf M K cur).filter (fun cd => cd.ts ≤ endMs) =
          gridBatch base tf M K cur := by
        refine List.filter_eq_self.mpr ?_
        intro c hc
        rw [gridBatch_eq] at hc
        obtain ⟨w, hw, rfl⟩ := List.mem_map.mp hc
        have := hcross w hw
        simp only [mkGrid, decide_eq_true_eq]
        omega
      obtain ⟨lastC, hlast⟩ : ∃ lastC, ((gridBatch base tf M K cur).filter
          (fun cd => cd.ts ≤ endMs)).getLast? = some lastC := by
        rw [hfil]
        cases hx : (gridBatch base tf M K cur).getLast? with
        | none => rw [List.getLast?_eq_none_iff] at hx; exact absurd hx hrawne
        | some lastC => exact ⟨lastC, rfl⟩
      rw [hlast]
      dsimp only
      have hnotlt : ¬ (gridBatch base tf M K cur).length < K := by omega
      rw [if_neg hnotlt]
      have hlmem : lastC ∈ gridBatch base tf M K cur := by
        have := List.mem_of_mem_getLast? hlast
        rw [hfil] at this; exact this
      rw [gridBatch_eq] at hlmem
      obtain ⟨w, hw, rfl⟩ := List.mem_map.mp hlmem
      have hwg : w < base + i * tf := hcross w hw
      have hwW : w ∈ (gridList base tf M).filter (fun t => decide (cur ≤ t)) :=
        (List.take_sublist _ _).subset hw
      have hwgrid : w ∈ gridList base tf M := (List.mem_filter.mp hwW).1
      have hcurw : cur ≤ w := by simpa using (List.mem_filter.mp hwW).2
      obtain ⟨i', hi', hw'⟩ := mem_gridList.mp hwgrid
      have hstep : w + tf ≤ base + i * tf := by
        rw [← hw']
        exact grid_step_le htf (by rw [hw']; exact hwg)
      have hlen' : ((gridList base tf M).filter
          (fun t => decide (w + tf ≤ t))).length < fuel := by
        have hsub : (gridList base tf M).filter (fun t => decide (w + tf ≤ t)) =
            ((gridList base tf M).filter (fun t => decide (cur ≤ t))).filter
              (fun t => decide (w + tf ≤ t)) := by
          rw [List.filter_filter]
          refine (List.filter_congr ?_)
          intro t _
          by_cases hqt : w + tf ≤ t
          · have hct : cur ≤ t := by omega
            simp [hqt, hct]
          · simp [hqt]
        have hdec : (((gridList base tf M).filter (fun t => decide (cur ≤ t))).filter
            (fun t => decide (w + tf ≤ t))).length <
            ((gridList base tf M).filter (fun t => decide (cur ≤ t))).length :=
          List.length_filter_lt_length_iff_exists.mpr
            ⟨w, hwW, by simp; omega⟩
        rw [hsub]
        omega
      obtain ⟨c, hcmem, hcts⟩ := ih (call + 1) (w + tf) i hi hstep hend hlen'
      have hts : (mkGrid w).ts = w := rfl
      refine ⟨c, List.mem_append_right _ ?_, hcts⟩
      rw [hts]
      exact hcmem

/-! ## Fetch-level grid lemmas -/

theorem gridList_length (base tf M : Nat) : (gridList base tf M).length = M := by
  simp [gridList]

theorem okxFetch_grid_sound {base M limit endMs startMs fuel : Nat} {timeframe : String}
    {c : Candle}
    (hc : c ∈ okxFetchData (gridPage base (okxTimeframeMs timeframe) M (min limit 100))
        limit timeframe startMs endMs fuel) :
    c.ts ∈ gridList base (okxTimeframeMs timeframe) M ∧ startMs ≤ c.ts ∧ c.ts ≤ endMs := by
  obtain ⟨rc, hrc, rfl⟩ := mem_okxConvert hc
  have := okxLoop_grid_sound fuel 0 startMs rc hrc
  simpa [coerceCandle] using this

theorem okxFetch_grid_complete {base M limit endMs startMs fuel : Nat} {timeframe : String}
    (hlim : 0 < limit) (hfuel : M < fuel) {t : Nat}
    (ht : t ∈ gridList base (okxTimeframeMs timeframe) M)
    (h1 : startMs ≤ t) (h2 : t < endMs) :
    ∃ c ∈ okxFetchData (gridPage base (okxTimeframeMs timeframe) M (min limit 100))
        limit timeframe startMs endMs fuel, c.ts = t := by
  have htf := okxTimeframeMs_pos timeframe
  have hK : 0 < min limit 100 := by omega
  obtain ⟨i, hi, hit⟩ := mem_gridList.mp ht
  subst hit
  have hlen : ((gridList base (okxTimeframeMs timeframe) M).filter
      (fun t => decide (startMs ≤ t))).length < fuel := by
    have h3 := List.length_filter_le (fun t => decide (startMs ≤ t))
      (gridList base (okxTimeframeMs timeframe) M)
    rw [gridList_length] at h3
    omega
  obtain ⟨rc, hrc, hts⟩ :=
    okxLoop_grid_complete htf hK fuel 0 startMs i hi h1 h2 hlen
  have : base + i * okxTimeframeMs timeframe ∈
      (okxLoop (gridPage base (okxTimeframeMs timeframe) M (min limit 100))
        (min limit 100) (okxTimeframeMs timeframe) endMs fuel 0 startMs).map
        RawCandle.ts := by
    rw [← hts]; exact List.mem_map_of_mem _ hrc
  exact ts_mem_okxConvert this

/-! ## C1: pagination completeness -/

/-- C1 (amended): against a mock rate-limited adapter serving consecutive
candles spaced one timeframe apart (any page size `min limit 100`, any
positive `limit`), the paginated fetch returns a strictly ascending,
duplicate-free sequence of upstream candles inside `[startMs, endMs]` that
contains every upstream candle of the half-open window `[startMs, endMs)`:
pages never overlap and no interior row is dropped.  Amendment forced by the
counterexample: the single candle at exactly `endMs` is not guaranteed, since
the `while current < end` check stops the loop when the cursor lands exactly
on `endMs` at a page boundary. -/
theorem okx_pagination_grid (base M limit fuel startMs endMs : Nat) (timeframe : String)
    (hlim : 0 < limit) (hfuel : M < fuel) :
    (okxFetchData (gridPage base (okxTimeframeMs timeframe) M (min limit 100))
        limit timeframe startMs endMs fuel).Pairwise (fun a b => a.ts < b.ts) ∧
    (∀ c ∈ okxFetchData (gridPage base (okxTimeframeMs timeframe) M (min limit 100))
        limit timeframe startMs endMs fuel,
      c.ts ∈ gridList base (okxTimeframeMs timeframe) M ∧ startMs ≤ c.ts ∧ c.ts ≤ endMs) ∧
    (∀ t ∈ gridList base (okxTimeframeMs timeframe) M, startMs ≤ t → t < endMs →
      ∃ c ∈ okxFetchData (gridPage base (okxTimeframeMs timeframe) M (min limit 100))
          limit timeframe startMs endMs fuel, c.ts = t) :=
  ⟨okxConvert_pairwise _, fun _ hc => okxFetch_grid_sound hc,
   fun _ ht h1 h2 => okxFetch_grid_complete hlim hfuel ht h1 h2⟩

/-- C1 counterexample: page size 2, 1-minute timeframe, upstream candles at
0, 60000, ..., 540000, window `[0, 240000]` containing the five candles
0 .. 240000.  After the second full page the cursor lands exactly on the
window end and `while current < end` stops: the returned rows are only the
four candles 0 .. 180000 — the in-window candle at 240000 is dropped, so the
fetch does not return all `N` candles of the window. -/
theorem okx_pagination_counterexample :
    (240000 : Nat) ∈ gridList 0 60000 10 ∧
    (okxFetchData (gridPage 0 60000 10 (min 2 100)) 2 "1m" 0 240000 30).map Candle.ts =
      [0, 60000, 120000, 180000] ∧
    ¬ ∃ c ∈ okxFetchData (gridPage 0 60000 10 (min 2 100)) 2 "1m" 0 240000 30,
        c.ts = 240000 := by
  refine ⟨by decide, by decide, by decide⟩

/-- C1 witness: page size 2, ten upstream candles, window `[0, 250000]`. -/
theorem okx_pagination_grid_witness :
    (0 : Nat) < 2 ∧ (10 : Nat) < 30 ∧
    ((okxFetchData (gridPage 0 (okxTimeframeMs "1m") 10 (min 2 100))
        2 "1m" 0 250000 30).Pairwise (fun a b => a.ts < b.ts) ∧
    (∀ c ∈ okxFetchData (gridPage 0 (okxTimeframeMs "1m") 10 (min 2 100))
        2 "1m" 0 250000 30,
      c.ts ∈ gridList 0 (okxTimeframeMs "1m") 10 ∧ 0 ≤ c.ts ∧ c.ts ≤ 250000) ∧
    (∀ t ∈ gridList 0 (okxTimeframeMs "1m") 10, 0 ≤ t → t < 250000 →
      ∃ c ∈ okxFetchData (gridPage 0 (okxTimeframeMs "1m") 10 (min 2 100))
          2 "1m" 0 250000 30, c.ts = t)) :=
  ⟨by decide, by decide,
   okx_pagination_grid 0 10 2 30 0 250000 "1m" (by decide) (by decide)⟩

/-! ## C5: transient errors keep the pages accumulated so far -/

/-- One unfolding of the pagination loop for an arbitrary page function. -/
theorem okxLoop_succ_eq (page : Nat → Nat → Option (List RawCandle))
    (K tf endMs fuel call cur : Nat) :
    okxLoop page K tf endMs (fuel + 1) call cur =
      if cur < endMs then
        match page call cur with
        | none => []
        | some raw =>
          if raw = [] then []
          else
            match (raw.filter (fun cd => cd.ts ≤ endMs)).getLast? with
            | none => []
            | some lastC =>
              raw.filter (fun cd => cd.ts ≤ endMs) ++
                (if raw.length < K then []
                 else okxLoop page K tf endMs fuel (call + 1) (lastC.ts + tf))
      else [] := rfl

/-- An adapter that raises on its `n`-th call behaves exactly like the
well-behaved adapter driven for at most `n` loop iterations: the `break` on
`ccxt.BaseError` returns precisely the rows accumulated on the earlier
pages. -/
theorem okxLoop_erroringAt (good : Nat → List RawCandle) (K tf endMs n : Nat) :
    ∀ fuel call cur, call ≤ n →
      okxLoop (erroringAt n good) K tf endMs fuel call cur =
      okxLoop (liftPage good) K tf endMs (min fuel (n - call)) call cur := by
  intro fuel
  induction fuel with
  | zero => intro call cur _; simp [okxLoop]
  | succ fuel ih =>
    intro call cur hcall
    by_cases hc : call < n
    · have hmin : min (fuel + 1) (n - call) = min fuel (n - call - 1) + 1 := by omega
      rw [hmin, okxLoop_succ_eq, okxLoop_succ_eq]
      have hpage : erroringAt n good call cur = liftPage good call cur := by
        simp [erroringAt, liftPage, hc]
      rw [hpage]
      by_cases hcur : cur < endMs
      swap
      · rw [if_neg hcur, if_neg hcur]
      rw [if_pos hcur, if_pos hcur]
      simp only [liftPage]
      by_cases hraw : good cur = []
      · rw [if_pos hraw, if_pos hraw]
      rw [if_neg hraw, if_neg hraw]
      cases hlast : ((good cur).filter (fun cd => cd.ts ≤ endMs)).getLast? with
      | none => rfl
      | some lastC =>
        dsimp only
        by_cases hlen : (good cur).length < K
        · rw [if_pos hlen, if_pos hlen]
        · rw [if_neg hlen, if_neg hlen]
          have hnc : n - (call + 1) = n - call - 1 := by omega
          rw [ih (call + 1) (lastC.ts + tf) (by omega), hnc]
    · have hcn : call = n := le_antisymm hcall (not_lt.mp hc)
      have h0 : min (fuel + 1) (n - call) = 0 := by omega
      rw [h0, okxLoop_succ_eq]
      have hpage : erroringAt n good call cur = none := by simp [erroringAt, hc]
      rw [hpage]
      simp [okxLoop]

/-- C5: a transient upstream error on the `n`-th page call (0-based index
`n`, i.e. after `n` successful pages) makes the whole fetch return exactly
what the well-behaved adapter would return when the loop is stopped after
those `n` pages — the rows accumulated before the error survive.  The second
conjunct is the spec's Scenario C: a grid adapter (page size 2) that raises
on its 3rd call still leaves the first two pages' four rows committed to the
store by the Sync Coordinator step, which inserts all 4 of them. -/
theorem transient_error_partial_commit :
    (∀ (good : Nat → List RawCandle) (limit : Nat) (timeframe : String)
      (n fuel startMs endMs : Nat),
      okxFetchData (erroringAt n good) limit timeframe startMs endMs fuel =
        okxFetchData (liftPage good) limit timeframe startMs endMs (min fuel n)) ∧
    (fetchCryptoStep [] (fun s e =>
        okxFetchData (erroringAt 2 (gridBatch 0 60000 10 2)) 2 "1m" s e 30)
      "BTC/USDT" "okx" "1m" 0 1000000) =
      ([exRow "BTC/USDT" "okx" "1m" 0, exRow "BTC/USDT" "okx" "1m" 60000,
        exRow "BTC/USDT" "okx" "1m" 120000, exRow "BTC/USDT" "okx" "1m" 180000], 4) := by
  constructor
  · intro good limit timeframe n fuel startMs endMs
    unfold okxFetchData
    rw [okxLoop_erroringAt good (min limit 100) (okxTimeframeMs timeframe) endMs n
      fuel 0 startMs (Nat.zero_le n), Nat.sub_zero]
  · decide

/-! ## C3: monotonic incremental sync -/

theorem getLatestTimestamp_eq_none_iff {db : Db} {s e t : String} :
    getLatestTimestamp db s e t = none ↔ db.filter (inSeries s e t) = [] := by
  unfold getLatestTimestamp
  rw [maxTs?_eq_none_iff, List.map_eq_nil_iff]

theorem getLatestTimestamp_mem {db : Db} {s e t : String} {T : Nat}
    (h : getLatestTimestamp db s e t = some T) :
    ∃ r ∈ db, inSeries s e t r = true ∧ r.ts = T := by
  unfold getLatestTimestamp at h
  obtain ⟨r, hr, hts⟩ := List.mem_map.mp (maxTs?_mem h)
  exact ⟨r, (List.mem_filter.mp hr).1, (List.mem_filter.mp hr).2, hts⟩

theorem le_getLatestTimestamp {db : Db} {s e t : String} {T : Nat} {r : Row}
    (hr : r ∈ db) (hs : inSeries s e t r = true)
    (h : getLatestTimestamp db s e t = some T) : r.ts ≤ T := by
  unfold getLatestTimestamp at h
  exact le_maxTs? (List.mem_map_of_mem _ (List.mem_filter.mpr ⟨hr, hs⟩)) h

theorem getLatestTimestamp_isSome_of_hasKey {db : Db} {s e t : String} {ts : Nat}
    (h : hasKey db s e t ts) : ∃ T, getLatestTimestamp db s e t = some T := by
  obtain ⟨r, hr, h1, h2, h3, _⟩ := h
  cases hmax : getLatestTimestamp db s e t with
  | some T => exact ⟨T, rfl⟩
  | none =>
    rw [getLatestTimestamp_eq_none_iff] at hmax
    have hmem : r ∈ db.filter (inSeries s e t) :=
      List.mem_filter.mpr ⟨hr, by simp [inSeries, h1, h2, h3]⟩
    rw [hmax] at hmem
    simp at hmem

theorem fetchCryptoStep_eq_some {db : Db} {fetch : Nat → Nat → List Candle}
    {symbol exchange timeframe : String} {defStart nowMs T : Nat}
    (hT : getLatestTimestamp db symbol exchange timeframe = some T) (hTne : T ≠ 0) :
    fetchCryptoStep db fetch symbol exchange timeframe defStart nowMs =
      (if nowMs ≤ T + engineTimeframeDeltaMs timeframe then (db, 0)
       else if fetch (T + engineTimeframeDeltaMs timeframe) nowMs = [] then (db, 0)
       else saveData db (fetch (T + engineTimeframeDeltaMs timeframe) nowMs)
         symbol exchange timeframe) := by
  unfold fetchCryptoStep
  rw [hT]
  dsimp only
  rw [if_neg hTne]

/-- `if latest_timestamp:` is Python-falsy at 0: a stored high-water mark of
exactly 0 makes the engine fall back to the default window start, exactly as
if the series had never been fetched. -/
theorem fetchCryptoStep_eq_zero {db : Db} {fetch : Nat → Nat → List Candle}
    {symbol exchange timeframe : String} {defStart nowMs : Nat}
    (hT : getLatestTimestamp db symbol exchange timeframe = some 0) :
    fetchCryptoStep db fetch symbol exchange timeframe defStart nowMs =
      (if nowMs ≤ defStart then (db, 0)
       else if fetch defStart nowMs = [] then (db, 0)
       else saveData db (fetch defStart nowMs) symbol exchange timeframe) := by
  unfold fetchCryptoStep
  rw [hT]
  dsimp only
  rw [if_pos rfl]

theorem fetchCryptoStep_eq_none {db : Db} {fetch : Nat → Nat → List Candle}
    {symbol exchange timeframe : String} {defStart nowMs : Nat}
    (hT : getLatestTimestamp db symbol exchange timeframe = none) :
    fetchCryptoStep db fetch symbol exchange timeframe defStart nowMs =
      (if nowMs ≤ defStart then (db, 0)
       else if fetch defStart nowMs = [] then (db, 0)
       else saveData db (fetch defStart nowMs) symbol exchange timeframe) := by
  unfold fetchCryptoStep
  rw [hT]

theorem grid_le_index {base tf : Nat} (htf : 0 < tf) {i j : Nat}
    (h : base + i * tf ≤ base + j * tf) : i ≤ j := by
  by_contra hc
  push_neg at hc
  have := Nat.mul_lt_mul_of_lt_of_le hc (le_refl tf) htf
  omega

/-- C3 (amended for the truthy high-water-mark check): one Sync Coordinator
iteration against the grid adapter.  When the store holds a *non-zero*
high-water mark `T` for the series: (a) every row the run adds has timestamp
strictly greater than `T` (the window starts at `T` plus one timeframe
duration, so the row at `T` is never re-fetched), and (b) when that window
start has reached `now` the run skips, leaving the store untouched and
inserting 0 rows.  When the high-water mark is exactly 0, Python's
`if latest_timestamp:` is falsy and the run instead behaves as for a
never-fetched series, using the default window start (an adapter call the
original claim rules out — see the counterexample).  (c) In every case,
running the same step a second time with an unchanged clock inserts 0 rows
and leaves the store exactly as after the first run. -/
theorem sync_incremental_idempotent (db0 : Db) (base M limit fuel defStart nowMs : Nat)
    (timeframe symbol exchange : String) (hlim : 0 < limit) (hfuel : M < fuel) :
    (∀ T, getLatestTimestamp db0 symbol exchange timeframe = some T → T ≠ 0 →
      (∀ r ∈ (fetchCryptoStep db0
          (fun s e => okxFetchData (gridPage base (okxTimeframeMs timeframe) M
            (min limit 100)) limit timeframe s e fuel)
          symbol exchange timeframe defStart nowMs).1, r ∉ db0 → T < r.ts) ∧
      (nowMs ≤ T + engineTimeframeDeltaMs timeframe →
        fetchCryptoStep db0
          (fun s e => okxFetchData (gridPage base (okxTimeframeMs timeframe) M
            (min limit 100)) limit timeframe s e fuel)
          symbol exchange timeframe defStart nowMs = (db0, 0))) ∧
    (getLatestTimestamp db0 symbol exchange timeframe = some 0 →
      fetchCryptoStep db0
        (fun s e => okxFetchData (gridPage base (okxTimeframeMs timeframe) M
          (min limit 100)) limit timeframe s e fuel)
        symbol exchange timeframe defStart nowMs =
      (if nowMs ≤ defStart then (db0, 0)
       else if okxFetchData (gridPage base (okxTimeframeMs timeframe) M
           (min limit 100)) limit timeframe defStart nowMs fuel = [] then (db0, 0)
       else saveData db0 (okxFetchData (gridPage base (okxTimeframeMs timeframe) M
           (min limit 100)) limit timeframe defStart nowMs fuel)
         symbol exchange timeframe)) ∧
    fetchCryptoStep (fetchCryptoStep db0
        (fun s e => okxFetchData (gridPage base (okxTimeframeMs timeframe) M
          (min limit 100)) limit timeframe s e fuel)
        symbol exchange timeframe defStart nowMs).1
      (fun s e => okxFetchData (gridPage base (okxTimeframeMs timeframe) M
        (min limit 100)) limit timeframe s e fuel)
      symbol exchange timeframe defStart nowMs =
    ((fetchCryptoStep db0
        (fun s e => okxFetchData (gridPage base (okxTimeframeMs timeframe) M
          (min limit 100)) limit timeframe s e fuel)
        symbol exchange timeframe defStart nowMs).1, 0) := by
  set F : Nat → Nat → List Candle := fun s e =>
    okxFetchData (gridPage base (okxTimeframeMs timeframe) M (min limit 100))
      limit timeframe s e fuel with hF
  have htf : 0 < okxTimeframeMs timeframe := okxTimeframeMs_pos timeframe
  have hdelta : engineTimeframeDeltaMs timeframe = okxTimeframeMs timeframe :=
    engineTimeframeDeltaMs_eq_okx timeframe
  have hFsound : ∀ s e : Nat, ∀ c ∈ F s e,
      c.ts ∈ gridList base (okxTimeframeMs timeframe) M ∧ s ≤ c.ts ∧ c.ts ≤ e := by
    intro s e c hc
    rw [hF] at hc
    exact okxFetch_grid_sound hc
  have hFcomplete : ∀ s e t : Nat, t ∈ gridList base (okxTimeframeMs timeframe) M →
      s ≤ t → t < e → ∃ c ∈ F s e, c.ts = t := by
    intro s e t ht h1 h2
    rw [hF]
    exact okxFetch_grid_complete hlim hfuel ht h1 h2
  refine ⟨?_, ?_, ?_⟩
  · -- part (a) and (b): behaviour relative to a non-zero high-water mark
    intro T hT hTne
    constructor
    · intro r hr hrdb
      rw [fetchCryptoStep_eq_some hT hTne] at hr
      by_cases hskip : nowMs ≤ T + engineTimeframeDeltaMs timeframe
      · rw [if_pos hskip] at hr; exact absurd hr hrdb
      rw [if_neg hskip] at hr
      by_cases hdata : F (T + engineTimeframeDeltaMs timeframe) nowMs = []
      · rw [if_pos hdata] at hr; exact absurd hr hrdb
      rw [if_neg hdata] at hr
      rcases mem_of_mem_saveData hr with hin | ⟨c, hc, rfl⟩
      · exact absurd hin hrdb
      · have hsound := (hFsound _ _ c hc).2.1
        have hd := engineTimeframeDeltaMs_pos timeframe
        have hts : (rowOf symbol exchange timeframe c).ts = c.ts := rfl
        omega
    · intro hnow
      rw [fetchCryptoStep_eq_some hT hTne, if_pos hnow]
  · -- the falsy zero high-water mark: behaves like a never-fetched series
    intro hT0
    rw [fetchCryptoStep_eq_zero hT0]
  · -- part (c): the second run is a no-op
    obtain ⟨start1, hr1eq, hP, hPos⟩ :
        ∃ start1, (fetchCryptoStep db0 F symbol exchange timeframe defStart nowMs =
          (if nowMs ≤ start1 then (db0, 0)
           else if F start1 nowMs = [] then (db0, 0)
           else saveData db0 (F start1 nowMs) symbol exchange timeframe)) ∧
          ((∀ r ∈ db0, inSeries symbol exchange timeframe r = true → r.ts = 0) ∨
           (∀ r ∈ db0, inSeries symbol exchange timeframe r = true → r.ts < start1)) ∧
          (start1 = defStart ∨ 0 < start1) := by
      cases hlat : getLatestTimestamp db0 symbol exchange timeframe with
      | none =>
        refine ⟨defStart, fetchCryptoStep_eq_none hlat, Or.inl ?_, Or.inl rfl⟩
        intro r hr hs
        rw [getLatestTimestamp_eq_none_iff] at hlat
        have hmem : r ∈ db0.filter (inSeries symbol exchange timeframe) :=
          List.mem_filter.mpr ⟨hr, hs⟩
        rw [hlat] at hmem
        simp at hmem
      | some T =>
        by_cases hT0 : T = 0
        · subst hT0
          refine ⟨defStart, fetchCryptoStep_eq_zero hlat, Or.inl ?_, Or.inl rfl⟩
          intro r hr hs
          have := le_getLatestTimestamp hr hs hlat
          omega
        · refine ⟨T + engineTimeframeDeltaMs timeframe,
            fetchCryptoStep_eq_some hlat hT0, Or.inr ?_,
            Or.inr (by have := engineTimeframeDeltaMs_pos timeframe; omega)⟩
          intro r hr hs
          have hle := le_getLatestTimestamp hr hs hlat
          have hd := engineTimeframeDeltaMs_pos timeframe
          omega
    by_cases hskip : nowMs ≤ start1
    · have hr1 : fetchCryptoStep db0 F symbol exchange timeframe defStart nowMs =
          (db0, 0) := by rw [hr1eq, if_pos hskip]
      rw [hr1]
      exact hr1
    by_cases hdata : F start1 nowMs = []
    · have hr1 : fetchCryptoStep db0 F symbol exchange timeframe defStart nowMs =
          (db0, 0) := by rw [hr1eq, if_neg hskip, if_pos hdata]
      rw [hr1]
      exact hr1
    have hr1 : fetchCryptoStep db0 F symbol exchange timeframe defStart nowMs =
        saveData db0 (F start1 nowMs) symbol exchange timeframe := by
      rw [hr1eq, if_neg hskip, if_neg hdata]
    rw [hr1]
    obtain ⟨c0, hc0⟩ := List.exists_mem_of_ne_nil _ hdata
    have hkey0 : hasKey (saveData db0 (F start1 nowMs) symbol exchange timeframe).1
        symbol exchange timeframe c0.ts := hasKey_saveData_of_mem_batch hc0
    obtain ⟨T1, hT1⟩ := getLatestTimestamp_isSome_of_hasKey hkey0
    have hle : ∀ c ∈ F start1 nowMs, c.ts ≤ T1 := by
      intro c hc
      obtain ⟨r, hr, h1, h2, h3, h4⟩ :=
        @hasKey_saveData_of_mem_batch db0 (F start1 nowMs) symbol exchange timeframe c hc
      have hs : inSeries symbol exchange timeframe r = true := by
        simp [inSeries, h1, h2, h3]
      have := le_getLatestTimestamp hr hs hT1
      omega
    have hall : ∀ c ∈ F start1 nowMs,
        hasKey (saveData db0 (F start1 nowMs) symbol exchange timeframe).1
          symbol exchange timeframe c.ts :=
      fun _ hc => hasKey_saveData_of_mem_batch hc
    obtain ⟨rT, hrT, hsT, htsT⟩ := getLatestTimestamp_mem hT1
    have hdich : T1 = 0 ∨ ∃ c ∈ F start1 nowMs, c.ts = T1 := by
      rcases mem_of_mem_saveData hrT with hold | ⟨c, hc, rfl⟩
      · rcases hP with hz | hlt
        · have := hz rT hold hsT
          omega
        · exfalso
          have h1 := hlt rT hold hsT
          have h2 := (hFsound _ _ c0 hc0).2.1
          have h3 := hle c0 hc0
          omega
      · exact Or.inr ⟨c, hc, by rw [← htsT]; rfl⟩
    by_cases hT1zero : T1 = 0
    · -- the second run repeats the default window: everything already stored
      have hstart0 : start1 = 0 := by
        have h2 := (hFsound _ _ c0 hc0).2.1
        have h3 := hle c0 hc0
        omega
      have hsd : start1 = defStart := by
        rcases hPos with h | h
        · exact h
        · omega
      have hT1' : getLatestTimestamp
          (saveData db0 (F start1 nowMs) symbol exchange timeframe).1
          symbol exchange timeframe = some 0 := by rw [hT1, hT1zero]
      rw [fetchCryptoStep_eq_zero hT1', ← hsd, if_neg hskip, if_neg hdata]
      exact saveData_of_all_present hall
    · -- non-zero high-water mark: the incremental window holds nothing new
      obtain ⟨cT, hcT, hcTts⟩ : ∃ c ∈ F start1 nowMs, c.ts = T1 := by
        rcases hdich with h0 | h
        · exact absurd h0 hT1zero
        · exact h
      have hT1grid : T1 ∈ gridList base (okxTimeframeMs timeframe) M := by
        rw [← hcTts]; exact (hFsound _ _ cT hcT).1
      have hT1ge : start1 ≤ T1 := by
        have := (hFsound _ _ cT hcT).2.1; omega
      obtain ⟨m, hm, hmT⟩ := mem_gridList.mp hT1grid
      rw [fetchCryptoStep_eq_some hT1 hT1zero]
      by_cases hskip2 : nowMs ≤ T1 + engineTimeframeDeltaMs timeframe
      · rw [if_pos hskip2]
      rw [if_neg hskip2]
      have hdata2 : F (T1 + engineTimeframeDeltaMs timeframe) nowMs = [] := by
        by_contra hne
        obtain ⟨c, hc⟩ := List.exists_mem_of_ne_nil _ hne
        obtain ⟨hcg, hcge, _⟩ := hFsound _ _ c hc
        obtain ⟨i, hi, hit⟩ := mem_gridList.mp hcg
        have harith : base + (m + 1) * okxTimeframeMs timeframe =
            base + m * okxTimeframeMs timeframe + okxTimeframeMs timeframe := by ring
        have hstep2 : base + (m + 1) * okxTimeframeMs timeframe ≤
            base + i * okxTimeframeMs timeframe := by omega
        have hidx : m + 1 ≤ i := grid_le_index htf hstep2
        have hg2 : base + (m + 1) * okxTimeframeMs timeframe ∈
            gridList base (okxTimeframeMs timeframe) M :=
          mem_gridList.mpr ⟨m + 1, by omega, rfl⟩
        obtain ⟨c', hc', hc'ts⟩ := hFcomplete start1 nowMs
          (base + (m + 1) * okxTimeframeMs timeframe) hg2 (by omega) (by omega)
        have := hle c' hc'
        omega
      rw [if_pos hdata2]

/-- C3 counterexample: `if latest_timestamp:` (engine.py line 110) is
Python-falsy at 0, so for a series whose stored high-water mark is exactly 0
the run does not use window start `T + delta` and does not skip even though
`0 + delta ≥ now`: it falls back to the default lookback window, calls the
adapter with a window that re-includes the row at `T = 0`, and here inserts
one more row — where the claim predicts a skip with no adapter call and 0
insertions. -/
theorem sync_zero_timestamp_counterexample :
    getLatestTimestamp [exRow "BTC/USDT" "okx" "1m" 0] "BTC/USDT" "okx" "1m" =
      some 0 ∧
    (60000 : Nat) ≤ 0 + engineTimeframeDeltaMs "1m" ∧
    fetchCryptoStep [exRow "BTC/USDT" "okx" "1m" 0]
      (fun s e => okxFetchData (gridPage 0 (okxTimeframeMs "1m") 2 (min 2 100))
        2 "1m" s e 10)
      "BTC/USDT" "okx" "1m" 0 60000 =
      ([exRow "BTC/USDT" "okx" "1m" 0, exRow "BTC/USDT" "okx" "1m" 60000], 1) ∧
    fetchCryptoStep [exRow "BTC/USDT" "okx" "1m" 0]
      (fun s e => okxFetchData (gridPage 0 (okxTimeframeMs "1m") 2 (min 2 100))
        2 "1m" s e 10)
      "BTC/USDT" "okx" "1m" 0 60000 ≠ ([exRow "BTC/USDT" "okx" "1m" 0], 0) := by
  refine ⟨by decide, by decide, by decide, by decide⟩

/-- C3 witness: grid adapter with ten candles, page size 2, window ending at
250000; the second run of the same step inserts 0 rows and leaves the store
unchanged. -/
theorem sync_incremental_idempotent_witness :
    (0 : Nat) < 2 ∧ (10 : Nat) < 30 ∧
    fetchCryptoStep (fetchCryptoStep []
        (fun s e => okxFetchData (gridPage 0 (okxTimeframeMs "1m") 10 (min 2 100))
          2 "1m" s e 30) "BTC/USDT" "okx" "1m" 0 250000).1
      (fun s e => okxFetchData (gridPage 0 (okxTimeframeMs "1m") 10 (min 2 100))
        2 "1m" s e 30) "BTC/USDT" "okx" "1m" 0 250000 =
    ((fetchCryptoStep []
        (fun s e => okxFetchData (gridPage 0 (okxTimeframeMs "1m") 10 (min 2 100))
          2 "1m" s e 30) "BTC/USDT" "okx" "1m" 0 250000).1, 0) :=
  ⟨by decide, by decide,
   (sync_incremental_idempotent [] 0 10 2 30 0 250000 "1m" "BTC/USDT" "okx"
     (by decide) (by decide)).2.2⟩

/-! ## C7: malformed numeric fields -/

/-- C7 counterexample: an upstream row whose `open` field is malformed is
coerced to the missing sentinel (`none`, pandas `NaN`) but NOT dropped: the
fetch returns it (the OKX/Binance pipeline has no `dropna`), so "the
offending row is dropped before it can reach storage" fails, and the row is
handed onward toward the store. -/
theorem malformed_row_not_dropped_counterexample :
    okxFetchData (liftPage (fun _ => [⟨0, .malformed, .num 1, .num 1, .num 1, .num 1⟩]))
      2 "1m" 0 100000 10 = [⟨0, none, some 1, some 1, some 1, some 1⟩] ∧
    ∃ c ∈ okxFetchData
        (liftPage (fun _ => [⟨0, .malformed, .num 1, .num 1, .num 1, .num 1⟩]))
        2 "1m" 0 100000 10, c.op = none := by
  constructor <;> decide

/-- C7 (amended): the fetch pipeline coerces malformed numeric fields to the
missing sentinel but retains the offending rows: every accumulated raw row's
timestamp survives into the fetch output, and every output candle is exactly
the field-wise coercion of some accumulated raw row — rows with missing
fields flow on toward storage rather than being dropped. -/
theorem malformed_rows_coerced_not_dropped (l : List RawCandle) :
    (∀ rc ∈ l, ∃ c ∈ okxConvert l, c.ts = rc.ts) ∧
    (∀ c ∈ okxConvert l, ∃ rc ∈ l, c = coerceCandle rc) :=
  ⟨fun _ hrc => ts_mem_okxConvert (List.mem_map_of_mem _ hrc),
   fun _ hc => mem_okxConvert hc⟩

/-! ## C8: the Query API's retry after an on-demand fetch -/

/-- C8 (what the code actually does): whenever the initial store read is
empty, `_load_data`'s retry read returns empty again and the load fails, no
matter what the triggered fetcher call returned — its return value is
discarded and nothing writes to the store between the two reads. -/
theorem load_data_retry_reads_empty (db : Db) (fetch : Nat → Nat → List Candle)
    (symbol exchange timeframe : String) (startMs endMs : Nat)
    (h : getData db symbol exchange timeframe (some startMs) (some endMs) none = []) :
    loadDataCrypto db fetch symbol exchange timeframe startMs endMs = none := by
  simp [loadDataCrypto, h]

/-- C8 witness: empty store, an adapter holding one candle in range; the load
still fails with no data. -/
theorem load_data_retry_reads_empty_witness :
    getData [] "BTC/USDT" "okx" "1h" (some 0) (some 1000) none = [] ∧
    loadDataCrypto [] (fun _ _ => [⟨0, some 1, some 1, some 1, some 1, some 1⟩])
      "BTC/USDT" "okx" "1h" 0 1000 = none :=
  ⟨by decide, load_data_retry_reads_empty [] _ "BTC/USDT" "okx" "1h" 0 1000 (by decide)⟩

end Datafeed
